import Mathlib

/-!
Verification of the e-commerce data pipeline (cleaning, category
classification, relational transformation, RFM scoring, database loading,
and SQL script splitting/execution) against its natural-language
specification.  Each Python function of the repository that a claim touches
is shallowly embedded as an executable Lean definition; machine floats on
money/quantity columns are modelled as exact rationals, timestamps as
integers (days), and fallible/NaN-producing operations as `Option`.
-/

namespace ECommerce

/-! ## Record Cleaner (`scripts/data_processing.py`, `clean_online_retail_data`)

A raw input row of the UCI Online Retail table.  `customerId`, `invoiceNo`
and `description` are nullable columns (`Option`); `totalPrice` is the
derived `TotalPrice` column, which the cleaner overwrites unconditionally,
so raw input may carry any value there. -/
structure RetailRow where
  invoiceNo : Option String
  stockCode : String
  description : Option String
  quantity : ℚ
  unitPrice : ℚ
  invoiceDate : Int
  customerId : Option String
  country : String
  totalPrice : ℚ
deriving DecidableEq

/-- Step (a): `dropna(subset=['CustomerID'])` then `dropna(subset=['InvoiceNo'])`. -/
def dropMissingIds (rows : List RetailRow) : List RetailRow :=
  (rows.filter (fun r => r.customerId.isSome)).filter (fun r => r.invoiceNo.isSome)

/-- Step (b): remove invoices starting with the cancellation marker `C`
(`df_clean[~df_clean['InvoiceNo'].str.startswith('C')]`). -/
def dropCancellations (rows : List RetailRow) : List RetailRow :=
  rows.filter (fun r => !(r.invoiceNo.getD "").startsWith "C")

/-- Step (c): keep rows with `Quantity > 0` and `UnitPrice > 0`. -/
def keepPositive (rows : List RetailRow) : List RetailRow :=
  rows.filter (fun r => decide (0 < r.quantity) && decide (0 < r.unitPrice))

/-- Step (d): derive `TotalPrice = Quantity * UnitPrice`. -/
def deriveTotalPrice (rows : List RetailRow) : List RetailRow :=
  rows.map (fun r => { r with totalPrice := r.quantity * r.unitPrice })

/-- Step (e): `Description.fillna('Unknown')`. -/
def fillDescription (rows : List RetailRow) : List RetailRow :=
  rows.map (fun r => { r with description := some (r.description.getD "Unknown") })

/-- Steps (a)-(e) of the cleaner, in the order the source applies them. -/
def filteredSteps (rows : List RetailRow) : List RetailRow :=
  fillDescription (deriveTotalPrice (keepPositive (dropCancellations (dropMissingIds rows))))

/-- Mean of a rational column (`Series.mean`); junk value 0 on the empty list
(pandas would give NaN, but the cleaner only consumes the mean next to a
sample standard deviation, which is itself NaN/`none` in that case). -/
def qMean (xs : List ℚ) : ℚ := xs.sum / xs.length

/-- Sample variance with `ddof = 1` (the square of pandas `Series.std()`):
defined only when the column has at least two entries; for shorter columns
`std()` is NaN, modelled as `none`. -/
def sampleVar? (xs : List ℚ) : Option ℚ :=
  if 2 ≤ xs.length then
    some ((xs.map (fun x => (x - qMean xs) ^ 2)).sum / ((xs.length : ℚ) - 1))
  else none

/-- The keep-condition `x < mean + 3 * std` of the three-sigma filter, with
`std = sqrt variance` eliminated rationally: for `variance >= 0` it is
equivalent to `x < mean || (x - mean)^2 < 9 * variance` (see
`keepBelow3Sigma_iff_sqrt`).  A NaN standard deviation (`none`) makes the
pandas comparison false, so every row is dropped. -/
def keepBelow3Sigma (x m : ℚ) (v? : Option ℚ) : Bool :=
  match v? with
  | none => false
  | some v => decide (x < m) || decide ((x - m) ^ 2 < 9 * v)

/-- Step (f): the three-sigma outlier filter on `UnitPrice` and `Quantity`,
with mean/std computed once over the input to this step. -/
def removeOutliers (rows : List RetailRow) : List RetailRow :=
  let prices := rows.map (fun r => r.unitPrice)
  let qtys := rows.map (fun r => r.quantity)
  let pv := sampleVar? prices
  let qv := sampleVar? qtys
  rows.filter (fun r =>
    keepBelow3Sigma r.unitPrice (qMean prices) pv &&
    keepBelow3Sigma r.quantity (qMean qtys) qv)

/-- Embedding of `clean_online_retail_data`: steps (a)-(e) followed by the
outlier step (f). -/
def clean_online_retail_data (rows : List RetailRow) : List RetailRow :=
  removeOutliers (filteredSteps rows)

/-- Faithfulness of the rational three-sigma test: for a nonnegative
variance it coincides with the source's `x < mean + 3 * std`. -/
theorem keepBelow3Sigma_iff_sqrt (x m v : ℚ) (_hv : 0 ≤ v) :
    keepBelow3Sigma x m (some v) = true ↔
      (x : ℝ) < (m : ℝ) + 3 * Real.sqrt (v : ℝ) := by
  unfold keepBelow3Sigma
  simp only [Bool.or_eq_true, decide_eq_true_eq]
  constructor
  · rintro (h | h)
    · have hs : (0 : ℝ) ≤ Real.sqrt (v : ℝ) := Real.sqrt_nonneg _
      have : (x : ℝ) < (m : ℝ) := by exact_mod_cast h
      nlinarith
    · rcases lt_or_le (x : ℝ) (m : ℝ) with hlt | hge
      · have hs : (0 : ℝ) ≤ Real.sqrt (v : ℝ) := Real.sqrt_nonneg _
        nlinarith
      · have h' : ((x : ℝ) - m) ^ 2 < 9 * (v : ℝ) := by
          have := h
          push_cast at this ⊢
          exact_mod_cast this
        have h9 : ((x : ℝ) - m) < Real.sqrt (9 * (v : ℝ)) := by
          have := (Real.lt_sqrt (by linarith : (0 : ℝ) ≤ (x : ℝ) - m)).mpr h'
          exact this
        have hsq : Real.sqrt (9 * (v : ℝ)) = 3 * Real.sqrt (v : ℝ) := by
          rw [show (9 : ℝ) * (v : ℝ) = 3 ^ 2 * (v : ℝ) by ring,
            Real.sqrt_mul (by positivity) , Real.sqrt_sq (by norm_num)]
        linarith [hsq ▸ h9]
  · intro h
    rcases lt_or_le x m with hlt | hge
    · exact Or.inl hlt
    · refine Or.inr ?_
      have hgeR : (0 : ℝ) ≤ (x : ℝ) - m := by
        have : (m : ℝ) ≤ (x : ℝ) := by exact_mod_cast hge
        linarith
      have hsq : Real.sqrt (9 * (v : ℝ)) = 3 * Real.sqrt (v : ℝ) := by
        rw [show (9 : ℝ) * (v : ℝ) = 3 ^ 2 * (v : ℝ) by ring,
          Real.sqrt_mul (by positivity), Real.sqrt_sq (by norm_num)]
      have h9 : (x : ℝ) - m < Real.sqrt (9 * (v : ℝ)) := by
        rw [hsq]; linarith
      have h' : ((x : ℝ) - m) ^ 2 < 9 * (v : ℝ) :=
        (Real.lt_sqrt hgeR).mp h9
      have : ((x - m : ℚ) : ℝ) ^ 2 < ((9 * v : ℚ) : ℝ) := by push_cast; push_cast at h'; linarith
      exact_mod_cast this

/-- Helper: mapping a function that fixes every member is the identity. -/
theorem map_eq_self_of {α : Type} (f : α → α) :
    ∀ l : List α, (∀ a ∈ l, f a = a) → l.map f = l := by
  intro l h
  induction l with
  | nil => rfl
  | cons a t ih =>
    simp only [List.map_cons]
    rw [h a (by simp), ih (fun b hb => h b (by simp [hb]))]

/-- Invariant satisfied by every row that survives cleaning steps (a)-(e). -/
def CleanRowOK (r : RetailRow) : Prop :=
  r.customerId.isSome = true ∧ r.invoiceNo.isSome = true ∧
  (r.invoiceNo.getD "").startsWith "C" = false ∧
  0 < r.quantity ∧ 0 < r.unitPrice ∧
  r.totalPrice = r.quantity * r.unitPrice ∧ r.description.isSome = true

theorem mem_filteredSteps_ok {rows : List RetailRow} {r : RetailRow}
    (h : r ∈ filteredSteps rows) : CleanRowOK r := by
  unfold filteredSteps at h
  simp only [fillDescription, deriveTotalPrice, List.mem_map] at h
  obtain ⟨b, ⟨a, ha, rfl⟩, rfl⟩ := h
  unfold keepPositive at ha
  have hpos := List.of_mem_filter ha
  replace ha := List.mem_of_mem_filter ha
  unfold dropCancellations at ha
  have hcancel := List.of_mem_filter ha
  replace ha := List.mem_of_mem_filter ha
  unfold dropMissingIds at ha
  have hinv := List.of_mem_filter ha
  have hcust := List.of_mem_filter (List.mem_of_mem_filter ha)
  simp only [Bool.and_eq_true, decide_eq_true_eq] at hpos
  simp only [Bool.not_eq_true'] at hcancel
  exact ⟨hcust, hinv, hcancel, hpos.1, hpos.2, rfl, rfl⟩

theorem filteredSteps_eq_self {l : List RetailRow}
    (h : ∀ r ∈ l, CleanRowOK r) : filteredSteps l = l := by
  unfold filteredSteps
  have h1 : dropMissingIds l = l := by
    unfold dropMissingIds
    rw [List.filter_eq_self.mpr (fun r hr => (h r hr).1)]
    exact List.filter_eq_self.mpr (fun r hr => (h r hr).2.1)
  rw [h1]
  have h2 : dropCancellations l = l := by
    unfold dropCancellations
    exact List.filter_eq_self.mpr (fun r hr => by
      simp [(h r hr).2.2.1])
  rw [h2]
  have h3 : keepPositive l = l := by
    unfold keepPositive
    exact List.filter_eq_self.mpr (fun r hr => by
      simp [(h r hr).2.2.2.1, (h r hr).2.2.2.2.1])
  rw [h3]
  have h4 : deriveTotalPrice l = l := by
    unfold deriveTotalPrice
    exact map_eq_self_of _ l (fun r hr => by
      have := (h r hr).2.2.2.2.2.1
      cases r; simp_all)
  rw [h4]
  unfold fillDescription
  exact map_eq_self_of _ l (fun r hr => by
    have := (h r hr).2.2.2.2.2.2
    obtain ⟨d, hd⟩ := Option.isSome_iff_exists.mp this
    cases r; simp_all)

theorem mem_clean_ok {rows : List RetailRow} {r : RetailRow}
    (h : r ∈ clean_online_retail_data rows) : CleanRowOK r := by
  unfold clean_online_retail_data removeOutliers at h
  exact mem_filteredSteps_ok (List.mem_of_mem_filter h)

/-- Concrete input for the idempotence counterexample: ten well-spread rows
plus one price outlier that the first cleaning pass removes; the survivors
then all share `unitPrice = 1`, so the second pass's three-sigma filter
(whose keep-condition `x < mean + 3·0` is strict) removes every one of them. -/
def exRow (q p : ℚ) : RetailRow :=
  { invoiceNo := some "536365", stockCode := "S1", description := some "THING",
    quantity := q, unitPrice := p, invoiceDate := 0,
    customerId := some "12345", country := "UK", totalPrice := 0 }

def c3input : List RetailRow :=
  [exRow 1 1, exRow 2 1, exRow 1 1, exRow 2 1, exRow 1 1, exRow 2 1,
   exRow 1 1, exRow 2 1, exRow 1 1, exRow 2 1, exRow 1 1000]

/-- Claim C3 (counterexample): the Record Cleaner is not idempotent; on
`c3input` the first pass drops only the price outlier, and re-cleaning the
result drops all remaining rows, so `clean (clean df) ≠ clean df`. -/
theorem C3_cleaner_not_idempotent_counterexample :
    clean_online_retail_data (clean_online_retail_data c3input) ≠
      clean_online_retail_data c3input := by with_unfolding_all decide

/-- Claim C3 (amended): re-cleaning an already-cleaned dataset re-applies
steps (a)-(e) as exact no-ops, so `clean (clean df) = outlier-step (clean df)`;
the three-sigma outlier step alone re-runs with freshly computed mean/std and
can remove further rows, hence cleaning is not idempotent in general. -/
theorem C3_recleaning_runs_only_outlier_step (rows : List RetailRow) :
    filteredSteps (clean_online_retail_data rows) = clean_online_retail_data rows ∧
    clean_online_retail_data (clean_online_retail_data rows) =
      removeOutliers (clean_online_retail_data rows) := by
  have h : filteredSteps (clean_online_retail_data rows) = clean_online_retail_data rows :=
    filteredSteps_eq_self (fun r hr => mem_clean_ok hr)
  exact ⟨h, by unfold clean_online_retail_data; rw [show filteredSteps
    (removeOutliers (filteredSteps rows)) = removeOutliers (filteredSteps rows) from h]⟩

/-- Claim C10: if exactly one row survives steps (a)-(e), the sample standard
deviation (ddof = 1) of the one-element price and quantity columns is NaN,
the keep-condition `x < mean + 3·std` is false for the row, and the cleaner
returns the empty dataset. -/
theorem C10_single_survivor_dropped (rows : List RetailRow)
    (h : (filteredSteps rows).length = 1) :
    clean_online_retail_data rows = [] := by
  unfold clean_online_retail_data removeOutliers
  have hp : sampleVar? ((filteredSteps rows).map (fun r => r.unitPrice)) = none := by
    simp [sampleVar?, h]
  simp only [hp, keepBelow3Sigma, Bool.false_and]
  exact List.filter_eq_nil_iff.mpr (fun a _ => by simp)

/-- Witness for C10 at a concrete single-row dataset. -/
theorem C10_single_survivor_dropped_witness :
    (filteredSteps [exRow 2 3]).length = 1 ∧
      clean_online_retail_data [exRow 2 3] = [] :=
  ⟨by with_unfolding_all decide,
   C10_single_survivor_dropped [exRow 2 3] (by with_unfolding_all decide)⟩

/-! ## Category Classifier (`scripts/data_processing.py`, `determine_category`)

Each regex pattern in `category_patterns` is a plain alternation of literal
keywords, so `re.search(pattern, desc_lower)` holds exactly when some keyword
occurs as a contiguous substring of the lower-cased description; substrings
are modelled on character lists. -/

/-- Helper: `needle` is a leading segment of `hay`. -/
def leadsList : List Char → List Char → Bool
  | [], _ => true
  | _ :: _, [] => false
  | a :: as, b :: bs => a == b && leadsList as bs

/-- Helper: `needle` occurs contiguously inside `hay`. -/
def occursIn (needle : List Char) : List Char → Bool
  | [] => needle.isEmpty
  | c :: t => leadsList needle (c :: t) || occursIn needle t

/-- The `category_patterns` dict of `extract_product_categories`, in its
declared (insertion) order, with each regex alternation as a keyword list. -/
def category_patterns : List (String × List String) :=
  [("Gift", ["gift", "set", "box", "christmas", "holiday"]),
   ("Kitchen", ["kitchen", "cook", "bake", "spoon", "fork", "knife", "plate",
                "cup", "kettle", "jar", "bottle"]),
   ("Garden", ["garden", "outdoor", "plant", "flower", "seed"]),
   ("Decoration", ["decor", "decoration", "ornament", "candle", "frame",
                   "sign", "holder"]),
   ("Storage", ["box", "bag", "storage", "basket", "tin", "case"]),
   ("Bathroom", ["bath", "shower", "soap", "towel"]),
   ("Clothing", ["bag", "hat", "scarf", "shirt", "cloth"]),
   ("Toys", ["toy", "game", "play", "puzzle"]),
   ("Stationery", ["paper", "card", "pen", "pencil", "tape", "notebook"]),
   ("Food", ["coffee", "tea", "chocolate", "cake", "food", "drink"])]

/-- Evaluation of `re.search(keyword-alternation, s)` as a Bool. -/
def matchesPattern (kws : List String) (s : String) : Bool :=
  kws.any (fun k => occursIn k.toList s.toList)

/-- Embedding of `determine_category`: `Unknown` short-circuit, then the
first pattern (in declared order) that matches the lower-cased description,
else `Other`. -/
def determine_category (desc : Option String) : String :=
  match desc with
  | none => "Unknown"
  | some d =>
    if d = "Unknown" then "Unknown"
    else
      let dl := d.toLower
      match category_patterns.find? (fun p => matchesPattern p.2 dl) with
      | some p => p.1
      | none => "Other"

/-- Helper characterisation of `List.find?` as first-match, via positions. -/
theorem find_eq_of_first {α : Type} (p : α → Bool) :
    ∀ (l : List α) (i : Nat) (a : α),
      l[i]? = some a → p a = true →
      (∀ j b, j < i → l[j]? = some b → p b = false) →
      l.find? p = some a := by
  intro l
  induction l with
  | nil => intro i a ha; simp at ha
  | cons x t ih =>
    intro i a ha hp hfirst
    cases i with
    | zero =>
      simp only [List.getElem?_cons_zero, Option.some.injEq] at ha
      subst ha
      rw [List.find?_cons_of_pos _ hp]
    | succ k =>
      have hx : p x = false :=
        hfirst 0 x (Nat.succ_pos k) (by simp)
      rw [List.find?_cons_of_neg _ (by simp [hx])]
      exact ih k a (by simpa using ha) hp
        (fun j b hj hb => hfirst (j + 1) b (Nat.succ_lt_succ hj) (by simpa using hb))

/-- Claim C6: the classifier lower-cases the description and tests the
patterns in the fixed declared order Gift, Kitchen, Garden, Decoration,
Storage, Bathroom, Clothing, Toys, Stationery, Food, returning the first
matching category, `Other` when none matches, and `Unknown` (without any
pattern matching) for a null or `Unknown` description; in particular
`Kitchen gift box` is classified `Gift`. -/
theorem C6_classifier_first_match_order :
    (category_patterns.map Prod.fst =
      ["Gift", "Kitchen", "Garden", "Decoration", "Storage", "Bathroom",
       "Clothing", "Toys", "Stationery", "Food"]) ∧
    determine_category none = "Unknown" ∧
    determine_category (some "Unknown") = "Unknown" ∧
    determine_category (some "Kitchen gift box") = "Gift" ∧
    (∀ d : String, d ≠ "Unknown" →
      (∀ p ∈ category_patterns, matchesPattern p.2 d.toLower = false) →
      determine_category (some d) = "Other") ∧
    (∀ (d : String) (i : Nat) (cat : String) (kws : List String),
      category_patterns[i]? = some (cat, kws) →
      d ≠ "Unknown" →
      matchesPattern kws d.toLower = true →
      (∀ j q, j < i → category_patterns[j]? = some q →
        matchesPattern q.2 d.toLower = false) →
      determine_category (some d) = cat) := by
  refine ⟨rfl, rfl, rfl, by with_unfolding_all decide, ?_, ?_⟩
  · intro d hd hnone
    simp only [determine_category]
    rw [if_neg hd, List.find?_eq_none.mpr (fun p hp => by simp [hnone p hp])]
  · intro d i cat kws hi hd hmatch hfirst
    simp only [determine_category]
    rw [if_neg hd, find_eq_of_first _ category_patterns i (cat, kws) hi hmatch
      (fun j b hj hb => hfirst j b hj hb)]

/-- Witness for C6: the first-match branch applied at the description
`WOODLAND CHARLOTTE BAG` (pattern index 4, Storage, via keyword `bag`),
whose four earlier patterns all fail, and the no-match branch at `ZEBRA`. -/
theorem C6_classifier_first_match_order_witness :
    determine_category (some "WOODLAND CHARLOTTE BAG") = "Storage" ∧
    determine_category (some "ZEBRA") = "Other" :=
  ⟨C6_classifier_first_match_order.2.2.2.2.2 "WOODLAND CHARLOTTE BAG" 4 "Storage"
      ["box", "bag", "storage", "basket", "tin", "case"]
      (by with_unfolding_all decide) (by with_unfolding_all decide)
      (by with_unfolding_all decide)
      (by
        intro j q hj hq
        have hcases : j = 0 ∨ j = 1 ∨ j = 2 ∨ j = 3 := by omega
        rcases hcases with rfl | rfl | rfl | rfl <;>
          (simp only [category_patterns, List.getElem?_cons_zero,
            List.getElem?_cons_succ, Option.some.injEq] at hq ;
           subst hq ; with_unfolding_all decide)),
   C6_classifier_first_match_order.2.2.2.2.1 "ZEBRA"
      (by with_unfolding_all decide)
      (by
        intro p hp
        fin_cases hp <;> with_unfolding_all decide)⟩

/-! ## Relational Transformer (`scripts/data_processing.py`,
`transform_to_relational_model`)

A cleaned, categorized row (output of the cleaner and classifier): all
id/description columns are present and `category` has been added.  Claims
C1 and C4 concern the `orders`, `order_items` and `products` entities; the
`customers` aggregation is not referenced by any claim and is not embedded.
pandas `groupby`/`drop_duplicates` preserve one representative per key;
`groupby` additionally sorts the emitted groups by key, which only permutes
the output rows, so groups are produced here in first-seen key order. -/
structure TRow where
  invoiceNo : String
  stockCode : String
  description : String
  quantity : ℚ
  unitPrice : ℚ
  invoiceDate : Int
  customerId : String
  country : String
  totalPrice : ℚ
  category : String
deriving DecidableEq

structure OrderRow where
  order_id : String
  customer_id : String
  order_date : Int
  country : String
  total_amount : ℚ
deriving DecidableEq

structure OrderItemRow where
  order_id : String
  product_id : String
  quantity : ℚ
  unit_price : ℚ
  total_price : ℚ
deriving DecidableEq

structure ProductRow where
  product_id : String
  description : String
  unit_price : ℚ
  category : String
  stock_code : String
deriving DecidableEq

/-- Helper for `drop_duplicates(keep='first')` / distinct `groupby` keys:
keeps the first row of each key, in input order, given the keys already
seen. -/
def ddAux {α κ : Type} [DecidableEq κ] (key : α → κ) : List α → List κ → List α
  | [], _ => []
  | x :: xs, seen =>
    if key x ∈ seen then ddAux key xs seen
    else x :: ddAux key xs (key x :: seen)

/-- One representative row per distinct key, first occurrence kept. -/
def dropDuplicatesBy {α κ : Type} [DecidableEq κ] (key : α → κ) (l : List α) : List α :=
  ddAux key l []

/-- The `groupby` key of the orders extraction:
`(InvoiceNo, CustomerID, InvoiceDate, Country)`. -/
def orderKey (r : TRow) : String × String × Int × String :=
  (r.invoiceNo, r.customerId, r.invoiceDate, r.country)

/-- Orders entity: one row per distinct `orderKey`, with
`total_amount = sum of TotalPrice` within the group. -/
def transform_orders (rows : List TRow) : List OrderRow :=
  (dropDuplicatesBy orderKey rows).map (fun r =>
    { order_id := r.invoiceNo, customer_id := r.customerId,
      order_date := r.invoiceDate, country := r.country,
      total_amount :=
        ((rows.filter (fun s => decide (orderKey s = orderKey r))).map
          (fun s => s.totalPrice)).sum })

/-- Order-items entity: one row per input row, `order_id = InvoiceNo`,
`product_id = 'P' + StockCode`. -/
def transform_order_items (rows : List TRow) : List OrderItemRow :=
  rows.map (fun r =>
    { order_id := r.invoiceNo, product_id := "P" ++ r.stockCode,
      quantity := r.quantity, unit_price := r.unitPrice,
      total_price := r.totalPrice })

/-- Products entity: `drop_duplicates(subset=['StockCode'])` (keep-first),
then `product_id = 'P' + StockCode`. -/
def transform_products (rows : List TRow) : List ProductRow :=
  (dropDuplicatesBy (fun r => r.stockCode) rows).map (fun r =>
    { product_id := "P" ++ r.stockCode, description := r.description,
      unit_price := r.unitPrice, category := r.category,
      stock_code := r.stockCode })

/-- Sum of `total_price` over the order items belonging to one order id. -/
def itemsTotalFor (items : List OrderItemRow) (oid : String) : ℚ :=
  ((items.filter (fun it => decide (it.order_id = oid))).map
    (fun it => it.total_price)).sum

theorem mem_of_ddAux {α κ : Type} [DecidableEq κ] (key : α → κ) :
    ∀ (l : List α) (seen : List κ) (x : α), x ∈ ddAux key l seen → x ∈ l := by
  intro l
  induction l with
  | nil => intro seen x hx; simp [ddAux] at hx
  | cons a t ih =>
    intro seen x hx
    unfold ddAux at hx
    by_cases hk : key a ∈ seen
    · rw [if_pos hk] at hx
      exact List.mem_cons_of_mem a (ih seen x hx)
    · rw [if_neg hk] at hx
      rcases List.mem_cons.mp hx with rfl | hx'
      · exact List.mem_cons_self x t
      · exact List.mem_cons_of_mem a (ih _ x hx')

/-- Helper: the order-items total for `oid` is the sum of `TotalPrice` over
the input rows whose invoice number is `oid`. -/
theorem items_total_eq (rows : List TRow) (oid : String) :
    itemsTotalFor (transform_order_items rows) oid =
      ((rows.filter (fun s => decide (s.invoiceNo = oid))).map
        (fun s => s.totalPrice)).sum := by
  unfold itemsTotalFor transform_order_items
  induction rows with
  | nil => rfl
  | cons a t ih =>
    by_cases ha : a.invoiceNo = oid
    · simp [List.filter_cons, ha, ih]
    · simp [List.filter_cons, ha, ih]

/-- A first-customer/second-customer collision on one invoice: both rows
carry `InvoiceNo = "537001"` but different customers, so the orders
`groupby` emits two order rows with the same `order_id`. -/
def c1rowA : TRow :=
  { invoiceNo := "537001", stockCode := "S1", description := "D",
    quantity := 1, unitPrice := 1, invoiceDate := 0, customerId := "A",
    country := "UK", totalPrice := 1, category := "Other" }

def c1rowB : TRow :=
  { c1rowA with customerId := "B" }

def c1input : List TRow := [c1rowA, c1rowB]

/-- Claim C1 (counterexample): when one invoice number occurs with two
customer ids, each of the two emitted order rows has `total_amount = 1`,
while the order items sharing that `order_id` sum to `2`, so the claimed
invariant fails as stated. -/
theorem C1_order_total_counterexample :
    ¬ (∀ o ∈ transform_orders c1input,
        o.total_amount = itemsTotalFor (transform_order_items c1input) o.order_id) := by
  with_unfolding_all decide

/-- Claim C1 (amended): if within the input every invoice number determines
the customer, date and country (i.e. rows sharing `InvoiceNo` share the
whole orders `groupby` key — true of any well-formed invoice log), then each
order's `total_amount` equals the sum of `total_price` over the order items
whose `order_id` equals that order's id. -/
theorem C1_order_total_matches_items (rows : List TRow)
    (h : ∀ r ∈ rows, ∀ s ∈ rows, r.invoiceNo = s.invoiceNo → orderKey r = orderKey s) :
    ∀ o ∈ transform_orders rows,
      o.total_amount = itemsTotalFor (transform_order_items rows) o.order_id := by
  intro o ho
  unfold transform_orders at ho
  obtain ⟨r, hr, rfl⟩ := List.mem_map.mp ho
  have hrmem : r ∈ rows := mem_of_ddAux _ rows [] r hr
  rw [items_total_eq]
  show ((rows.filter (fun s => decide (orderKey s = orderKey r))).map
      (fun s => s.totalPrice)).sum =
    ((rows.filter (fun s => decide (s.invoiceNo = r.invoiceNo))).map
      (fun s => s.totalPrice)).sum
  rw [List.filter_congr (fun s hs => ?_)]
  simp only [decide_eq_decide]
  constructor
  · intro hkey
    have := congrArg Prod.fst hkey
    simpa using this
  · intro hinv; exact h s hs r hrmem hinv

/-- Well-formed two-invoice input: three line items, two invoices, each
invoice carried by a single customer. -/
def c1wfInput : List TRow :=
  [c1rowA,
   { c1rowA with stockCode := "S2", unitPrice := 3, totalPrice := 3 },
   { c1rowA with invoiceNo := "537002", customerId := "B", quantity := 2,
                 totalPrice := 2 }]

/-- Witness for C1 at a two-invoice input where the hypothesis holds. -/
theorem C1_order_total_matches_items_witness :
    (∀ r ∈ c1wfInput, ∀ s ∈ c1wfInput, r.invoiceNo = s.invoiceNo →
      orderKey r = orderKey s) ∧
    (∀ o ∈ transform_orders c1wfInput,
      o.total_amount = itemsTotalFor (transform_order_items c1wfInput) o.order_id) :=
  ⟨by with_unfolding_all decide,
   C1_order_total_matches_items c1wfInput (by with_unfolding_all decide)⟩

theorem ddAux_filter_of_seen {α κ : Type} [DecidableEq κ] (key : α → κ) :
    ∀ (l : List α) (seen : List κ) (c : κ), c ∈ seen →
      (ddAux key l seen).filter (fun x => decide (key x = c)) = [] := by
  intro l
  induction l with
  | nil => intro seen c _; rfl
  | cons a t ih =>
    intro seen c hc
    unfold ddAux
    by_cases hk : key a ∈ seen
    · rw [if_pos hk]; exact ih seen c hc
    · rw [if_neg hk]
      have hne : key a ≠ c := fun he => hk (he ▸ hc)
      rw [List.filter_cons, if_neg (by simp [hne])]
      exact ih (key a :: seen) c (List.mem_cons_of_mem _ hc)

theorem ddAux_filter_of_find {α κ : Type} [DecidableEq κ] (key : α → κ) :
    ∀ (l : List α) (seen : List κ) (c : κ) (r₀ : α), c ∉ seen →
      l.find? (fun x => decide (key x = c)) = some r₀ →
      (ddAux key l seen).filter (fun x => decide (key x = c)) = [r₀] := by
  intro l
  induction l with
  | nil => intro seen c r₀ _ hfind; simp at hfind
  | cons a t ih =>
    intro seen c r₀ hc hfind
    unfold ddAux
    rw [List.find?_cons] at hfind
    by_cases ha : key a = c
    · simp only [ha, decide_True] at hfind
      rw [Option.some.injEq] at hfind
      subst hfind
      have hk : key a ∉ seen := by rw [ha]; exact hc
      rw [if_neg hk, List.filter_cons, if_pos (by simp [ha])]
      rw [ddAux_filter_of_seen key t (key a :: seen) c (by simp [ha])]
    · simp only [ha, decide_False] at hfind
      by_cases hk : key a ∈ seen
      · rw [if_pos hk]; exact ih seen c r₀ hc hfind
      · rw [if_neg hk, List.filter_cons, if_neg (by simp [ha])]
        exact ih (key a :: seen) c r₀
          (by simp only [List.mem_cons]; rintro (h | h); exact ha h.symm; exact hc h)
          hfind

/-- Two rows with the same stock code and conflicting description/price. -/
def c4rowA : TRow :=
  { invoiceNo := "537001", stockCode := "S", description := "A",
    quantity := 1, unitPrice := 1, invoiceDate := 0, customerId := "A",
    country := "UK", totalPrice := 1, category := "Other" }

def c4rowB : TRow :=
  { c4rowA with description := "B", unitPrice := 2 }

def c4input : List TRow := [c4rowA, c4rowB]

/-- Claim C4 (counterexample): `drop_duplicates(subset=['StockCode'])`
defaults to `keep='first'`, so on two conflicting rows for stock code `S`
the single product row carries the description/price of the FIRST row
(`"A"`, 1), not of the last-seen row (`"B"`, 2) as claimed. -/
theorem C4_product_last_seen_counterexample :
    ¬ (∀ p ∈ transform_products c4input,
        p.stock_code = "S" → p.description = "B" ∧ p.unit_price = 2) := by
  with_unfolding_all decide

/-- Claim C4 (amended): for every stock code occurring in the input, the
Transformer emits exactly one Product row for it, and that row carries the
description and unit price of the FIRST-occurring row with that code. -/
theorem C4_product_first_seen_wins (rows : List TRow) (code : String) (r₀ : TRow)
    (hfind : rows.find? (fun r => decide (r.stockCode = code)) = some r₀) :
    (transform_products rows).filter (fun p => decide (p.stock_code = code)) =
      [{ product_id := "P" ++ code, description := r₀.description,
         unit_price := r₀.unitPrice, category := r₀.category,
         stock_code := code }] := by
  have hr₀ : r₀.stockCode = code := by
    have := List.find?_some hfind
    simpa using this
  unfold transform_products dropDuplicatesBy
  have hdd := ddAux_filter_of_find (fun r : TRow => r.stockCode) rows [] code r₀
    (by simp) hfind
  rw [List.filter_map]
  have : (fun p : ProductRow => decide (p.stock_code = code)) ∘
      (fun r : TRow =>
        ({ product_id := "P" ++ r.stockCode, description := r.description,
           unit_price := r.unitPrice, category := r.category,
           stock_code := r.stockCode } : ProductRow)) =
      (fun r : TRow => decide (r.stockCode = code)) := rfl
  rw [this, hdd, List.map_cons, List.map_nil, hr₀]

/-- Witness for C4: on `c4input` the first row for stock code `S` is
`c4rowA`, so the single emitted product carries description `A`, price 1. -/
theorem C4_product_first_seen_wins_witness :
    (transform_products c4input).filter (fun p => decide (p.stock_code = "S")) =
      [{ product_id := "PS", description := "A", unit_price := 1,
         category := "Other", stock_code := "S" }] :=
  C4_product_first_seen_wins c4input "S" c4rowA (by with_unfolding_all decide)

/-! ## Idempotent Loader (`scripts/data_processing.py`, `load_data_to_database`)

The persistent store is modelled as lists of entity rows plus the
`data_processing_log` table.  The loader opens one transaction
(`conn.autocommit = False`), performs all writes — including the initial
`INSERT ... ('data_loading', 'STARTED')` log row — on the uncommitted
working state, and either commits at the end or, on any exception,
rolls the whole transaction back (`conn.rollback()`) and re-raises.
An exception is modelled by naming the step at which it is raised. -/
structure CustomerRow where
  customer_id : String
  country : String
  first_purchase_date : Int
  last_purchase_date : Int
  total_purchases : Nat
  total_spent : ℚ
deriving DecidableEq

structure LogEntry where
  process_name : String
  status : String
  end_time : Option Nat
  records_processed : Option Nat
deriving DecidableEq

structure Store where
  customers : List CustomerRow
  products : List ProductRow
  orders : List OrderRow
  order_items : List OrderItemRow
  log : List LogEntry
deriving DecidableEq

/-- The four entity sets handed to the loader (`data_dict`). -/
structure DataDict where
  customers : List CustomerRow
  products : List ProductRow
  orders : List OrderRow
  order_items : List OrderItemRow
deriving DecidableEq

/-- SQL `INSERT ... ON CONFLICT (key) DO UPDATE SET` of one row: replace the
row with the matching key, else append. -/
def upsertBy {α κ : Type} [DecidableEq κ] (key : α → κ) (table : List α) (row : α) : List α :=
  if table.any (fun x => decide (key x = key row)) then
    table.map (fun x => if key x = key row then row else x)
  else table ++ [row]

/-- `executemany` of an upsert statement: rows applied in order. -/
def upsertManyBy {α κ : Type} [DecidableEq κ] (key : α → κ) (table : List α)
    (rows : List α) : List α :=
  rows.foldl (upsertBy key) table

/-- The successive write statements inside the loader's transaction. -/
inductive LoadStep
  | logStart
  | upsertCustomers
  | upsertProducts
  | upsertOrders
  | deleteOrderItems
  | insertOrderItems
  | logComplete
deriving DecidableEq

/-- Effect of each write statement on the (uncommitted) working state.
`logComplete` closes the open `data_loading` row (`end_time IS NULL`) with
status COMPLETED and the total record count; `some 0` stands for the
non-null `CURRENT_TIMESTAMP`. -/
def applyStep (d : DataDict) (w : Store) : LoadStep → Store
  | .logStart =>
    { w with log := w.log ++
        [{ process_name := "data_loading", status := "STARTED",
           end_time := none, records_processed := none }] }
  | .upsertCustomers =>
    { w with customers := upsertManyBy (fun c => c.customer_id) w.customers d.customers }
  | .upsertProducts =>
    { w with products := upsertManyBy (fun p => p.product_id) w.products d.products }
  | .upsertOrders =>
    { w with orders := upsertManyBy (fun o => o.order_id) w.orders d.orders }
  | .deleteOrderItems =>
    let keep := fun it : OrderItemRow =>
      !(d.orders.map (fun o => o.order_id)).contains it.order_id
    { w with order_items := w.order_items.filter keep }
  | .insertOrderItems =>
    { w with order_items := w.order_items ++ d.order_items }
  | .logComplete =>
    { w with log := w.log.map (fun e =>
        if e.process_name = "data_loading" ∧ e.end_time = none then
          { e with end_time := some 0, status := "COMPLETED",
                   records_processed := some (d.customers.length + d.products.length +
                     d.orders.length + d.order_items.length) }
        else e) }

def loadStepOrder : List LoadStep :=
  [.logStart, .upsertCustomers, .upsertProducts, .upsertOrders,
   .deleteOrderItems, .insertOrderItems, .logComplete]

/-- Runs the write statements on the working state until one raises. -/
def runLoadAux (d : DataDict) (failAt : Option LoadStep) :
    List LoadStep → Store → Option Store
  | [], w => some w
  | st :: rest, w =>
    if failAt = some st then none
    else runLoadAux d failAt rest (applyStep d w st)

/-- Embedding of `load_data_to_database`: on success the working state is
committed and becomes visible; on an exception at any step the transaction
is rolled back (the visible store is unchanged, including the STARTED log
row inserted earlier in the same transaction) and the exception re-raised. -/
def load_data_to_database (db : Store) (d : DataDict) (failAt : Option LoadStep) :
    Store × Option String :=
  match runLoadAux d failAt loadStepOrder db with
  | some w => (w, none)
  | none => (db, some "Error loading data to database")

def emptyStore : Store :=
  { customers := [], products := [], orders := [], order_items := [], log := [] }

def c2data : DataDict :=
  { customers := [{ customer_id := "A", country := "UK",
                    first_purchase_date := 0, last_purchase_date := 0,
                    total_purchases := 1, total_spent := 1 }],
    products := [], orders := [], order_items := [] }

/-- Claim C2 (counterexample): a failure during the customers upsert on an
initially empty store re-raises, but the rollback also removes the
`STARTED` log row — contrary to the claim, no `data_processing_log` row
with status STARTED remains in the store. -/
theorem C2_started_row_counterexample :
    ((load_data_to_database emptyStore c2data (some LoadStep.upsertCustomers)).2.isSome
        = true) ∧
    ¬ ∃ e ∈ (load_data_to_database emptyStore c2data
        (some LoadStep.upsertCustomers)).1.log, e.status = "STARTED" := by
  with_unfolding_all decide

/-- Claim C2 (amended): if any exception is raised at any step of the
loader's write sequence, the entire batch (including the STARTED log
insert, which is part of the same transaction) is rolled back — the visible
store is exactly the prior store, so no partial entity writes are visible
and no log row of the failed run remains — and the exception is re-raised
to the caller. -/
theorem C2_failure_rolls_back_everything (db : Store) (d : DataDict) (step : LoadStep) :
    load_data_to_database db d (some step) =
      (db, some "Error loading data to database") ∧
    (load_data_to_database db d (some step)).1.log = db.log := by
  cases step <;> exact ⟨rfl, rfl⟩

/-! ## RFM Loader (`scripts/customer_segmentation.py`, `load_rfm_to_database`) -/

structure SegmentRow where
  customer_id : String
  recency_score : Int
  frequency_score : Int
  monetary_score : Int
  rfm_score : Int
  segment : String
deriving DecidableEq

/-- Embedding of `load_rfm_to_database`: one transaction that first runs
`DELETE FROM customer_segments` (emptying the table) and then executes the
upsert insert for every input row; on an exception the transaction is
rolled back and re-raised, leaving the prior table visible. -/
def load_rfm_to_database (table : List SegmentRow) (input : List SegmentRow)
    (fail : Bool) : List SegmentRow × Option String :=
  if fail then (table, some "Error loading RFM data to database")
  else (upsertManyBy (fun s => s.customer_id) ([] : List SegmentRow) input, none)

theorem mem_upsertBy {α κ : Type} [DecidableEq κ] (key : α → κ)
    (t : List α) (row x : α) (hx : x ∈ upsertBy key t row) : x = row ∨ x ∈ t := by
  unfold upsertBy at hx
  by_cases hc : t.any (fun x => decide (key x = key row))
  · rw [if_pos hc] at hx
    obtain ⟨a, ha, hax⟩ := List.mem_map.mp hx
    by_cases hk : key a = key row
    · rw [if_pos hk] at hax; exact Or.inl hax.symm
    · rw [if_neg hk] at hax; exact Or.inr (hax ▸ ha)
  · rw [if_neg hc] at hx
    rcases List.mem_append.mp hx with h | h
    · exact Or.inr h
    · exact Or.inl (List.mem_singleton.mp h)

theorem mem_upsertManyBy {α κ : Type} [DecidableEq κ] (key : α → κ) :
    ∀ (rows : List α) (t : List α) (x : α),
      x ∈ upsertManyBy key t rows → x ∈ t ∨ x ∈ rows := by
  intro rows
  induction rows with
  | nil => intro t x hx; exact Or.inl hx
  | cons r rest ih =>
    intro t x hx
    unfold upsertManyBy at hx
    rw [List.foldl_cons] at hx
    rcases ih (upsertBy key t r) x hx with h | h
    · rcases mem_upsertBy key t r x h with h' | h'
      · exact Or.inr (h' ▸ List.mem_cons_self r rest)
      · exact Or.inl h'
    · exact Or.inr (List.mem_cons_of_mem r h)

/-- Claim C9: the RFM load deletes every existing `customer_segments` row
before inserting the new batch, so after a successful load a customer id
absent from the input does not survive, whatever the prior table held. -/
theorem C9_rfm_load_replaces_table (table input : List SegmentRow) (cid : String)
    (h : cid ∉ input.map (fun s => s.customer_id)) :
    ∀ r ∈ (load_rfm_to_database table input false).1, r.customer_id ≠ cid := by
  intro r hr hcid
  unfold load_rfm_to_database at hr
  rw [if_neg (by simp)] at hr
  rcases mem_upsertManyBy (fun s => s.customer_id) input [] r hr with h' | h'
  · simp at h'
  · exact h (hcid ▸ List.mem_map_of_mem (fun s => s.customer_id) h')

def c9old : SegmentRow :=
  { customer_id := "X", recency_score := 1, frequency_score := 1,
    monetary_score := 1, rfm_score := 3, segment := "Hibernating" }

def c9new : SegmentRow :=
  { customer_id := "Y", recency_score := 5, frequency_score := 5,
    monetary_score := 5, rfm_score := 15, segment := "Champions" }

/-- Witness for C9: a prior row for customer `X` does not survive a load
whose input only contains customer `Y`. -/
theorem C9_rfm_load_replaces_table_witness :
    ("X" ∉ ([c9new].map (fun s => s.customer_id))) ∧
    (∀ r ∈ (load_rfm_to_database [c9old] [c9new] false).1, r.customer_id ≠ "X") :=
  ⟨by with_unfolding_all decide,
   C9_rfm_load_replaces_table [c9old] [c9new] "X" (by with_unfolding_all decide)⟩

/-! ## Quoted-Statement Splitter (`scripts/db_utils.py`, `execute_sql_file`)

The statement-splitting loop of `execute_sql_file`: a two-state quote
tracker (inside/outside a string, remembering the opening quote character),
appending every character to the current statement and emitting it at each
semicolon seen outside a string; a nonempty trailing fragment is emitted as
the final statement.  (Comment stripping precedes this loop in the source
and is not involved in claims C7/C8.)  Statements are built as char lists
and converted with `String.mk` at the end. -/

/-- Quote-tracking update for one character: the `if char in ['\"', \x27]`
block of the loop. -/
def splitStep (c : Char) (inString : Bool) (delim : Option Char) :
    Bool × Option Char :=
  if c = '"' ∨ c = '\x27' then
    if inString = false then (true, some c)
    else if some c = delim then (false, delim)
    else (inString, delim)
  else (inString, delim)

/-- The character loop: update quote state, append the character, and emit
the current statement at a semicolon outside a string; at end of input a
nonempty remainder is emitted as the final statement. -/
def splitAuxL : List Char → Bool → Option Char → List Char → List (List Char) →
    List (List Char)
  | [], _, _, parts, stmts => if parts.isEmpty then stmts else stmts ++ [parts]
  | c :: rest, inString, delim, parts, stmts =>
    let st := splitStep c inString delim
    if c = ';' ∧ st.1 = false then
      splitAuxL rest st.1 st.2 [] (stmts ++ [parts ++ [c]])
    else
      splitAuxL rest st.1 st.2 (parts ++ [c]) stmts

/-- The splitter of `execute_sql_file` as a function on the script text. -/
def splitStatements (sql : String) : List String :=
  (splitAuxL sql.data false none [] []).map String.mk

/-- Single-quote character as a string (`'`). -/
def sq : String := "\x27"

/-- Unfolding equation for one non-emitting character. -/
theorem splitAuxL_step_no_emit (c : Char) (rest : List Char) (inString : Bool)
    (delim : Option Char) (parts : List Char) (stmts : List (List Char))
    (h : ¬(c = ';' ∧ (splitStep c inString delim).1 = false)) :
    splitAuxL (c :: rest) inString delim parts stmts =
      splitAuxL rest (splitStep c inString delim).1 (splitStep c inString delim).2
        (parts ++ [c]) stmts := by
  conv_lhs => unfold splitAuxL
  rw [if_neg h]

/-- Unfolding equation for an emitting semicolon. -/
theorem splitAuxL_step_emit (rest : List Char) (inString : Bool)
    (delim : Option Char) (parts : List Char) (stmts : List (List Char))
    (h : (splitStep ';' inString delim).1 = false) :
    splitAuxL (';' :: rest) inString delim parts stmts =
      splitAuxL rest (splitStep ';' inString delim).1 (splitStep ';' inString delim).2
        [] (stmts ++ [parts ++ [';']]) := by
  conv_lhs => unfold splitAuxL
  rw [if_pos ⟨rfl, h⟩]

/-- Helper: while inside a string literal, characters that are not the
quote characters — semicolons included — are accumulated into the current
statement without ever terminating it. -/
theorem splitAuxL_inside_string (delimC : Char) :
    ∀ (body rest : List Char), (∀ c ∈ body, c ≠ '"' ∧ c ≠ '\x27') →
      ∀ (parts : List Char) (stmts : List (List Char)),
        splitAuxL (body ++ rest) true (some delimC) parts stmts =
          splitAuxL rest true (some delimC) (parts ++ body) stmts := by
  intro body
  induction body with
  | nil => intro rest _ parts stmts; simp
  | cons c t ih =>
    intro rest hq parts stmts
    have hc : ¬(c = '"' ∨ c = '\x27') := by
      have := hq c (List.mem_cons_self c t)
      tauto
    have hst : splitStep c true (some delimC) = (true, some delimC) := by
      unfold splitStep; rw [if_neg hc]
    rw [List.cons_append,
      splitAuxL_step_no_emit c (t ++ rest) true (some delimC) parts stmts
        (by rw [hst]; simp), hst,
      ih rest (fun x hx => hq x (List.mem_cons_of_mem c hx)) (parts ++ [c]) stmts]
    simp

/-- Helper: outside a string, a segment free of quotes and semicolons is
accumulated into the current statement unchanged. -/
theorem splitAuxL_no_special :
    ∀ (seg : List Char), (∀ c ∈ seg, c ≠ '"' ∧ c ≠ '\x27' ∧ c ≠ ';') →
      ∀ (rest : List Char) (parts : List Char) (stmts : List (List Char)),
        splitAuxL (seg ++ rest) false none parts stmts =
          splitAuxL rest false none (parts ++ seg) stmts := by
  intro seg
  induction seg with
  | nil => intro _ rest parts stmts; simp
  | cons c t ih =>
    intro hc rest parts stmts
    obtain ⟨h1, h2, h3⟩ := hc c (List.mem_cons_self c t)
    have hst : splitStep c false none = (false, none) := by
      unfold splitStep; rw [if_neg (by tauto)]
    rw [List.cons_append,
      splitAuxL_step_no_emit c (t ++ rest) false none parts stmts
        (by rw [hst]; simp [h3]), hst,
      ih (fun x hx => hc x (List.mem_cons_of_mem c hx)) rest (parts ++ [c]) stmts]
    simp

/-- Helper: the emitted statement fragments concatenate back to the whole
input — no character is dropped. -/
theorem splitAuxL_join :
    ∀ (l : List Char) (inString : Bool) (delim : Option Char)
      (parts : List Char) (stmts : List (List Char)),
      (splitAuxL l inString delim parts stmts).flatten = stmts.flatten ++ parts ++ l := by
  intro l
  induction l with
  | nil =>
    intro inString delim parts stmts
    unfold splitAuxL
    by_cases hp : parts.isEmpty
    · rw [if_pos hp]
      rw [List.isEmpty_iff] at hp
      simp [hp]
    · rw [if_neg hp]; simp
  | cons c t ih =>
    intro inString delim parts stmts
    by_cases hsplit : c = ';' ∧ (splitStep c inString delim).1 = false
    · obtain ⟨rfl, hfalse⟩ := hsplit
      rw [splitAuxL_step_emit t inString delim parts stmts hfalse, ih]
      simp
    · rw [splitAuxL_step_no_emit c t inString delim parts stmts hsplit, ih]
      simp

/-- Helper: `String.join` of `String.mk`ed char lists is the flattened list. -/
theorem join_mk_eq (ll : List (List Char)) :
    String.join (ll.map String.mk) = String.mk ll.flatten := by
  have hfold : ∀ (ls : List String) (acc : String),
      (ls.foldl (· ++ ·) acc).data = acc.data ++ (ls.map String.data).flatten := by
    intro ls
    induction ls with
    | nil => intro acc; simp
    | cons s rest ih =>
      intro acc
      rw [List.foldl_cons, ih (acc ++ s)]
      simp [String.data_append]
  apply String.ext
  rw [String.join, hfold]
  have hdm : List.map String.data (List.map String.mk ll) = ll := by
    rw [List.map_map]
    have hcomp : String.data ∘ String.mk = id := rfl
    rw [hcomp, List.map_id]
  rw [hdm]
  rfl

/-- Claim C7: a semicolon inside a single-quoted string literal does not
terminate a statement — concretely `INSERT INTO t VALUES ('a;b');` is
emitted as one statement, and generally for any quote-free literal body —
and the splitter loses no characters (`String.join` of the output is the
input), so a trailing statement not ended by a semicolon is still emitted
as the final statement, as in the concrete two-statement script. -/
theorem C7_splitter_quotes_and_trailing :
    (splitStatements ("INSERT INTO t VALUES (" ++ sq ++ "a;b" ++ sq ++ ");") =
      ["INSERT INTO t VALUES (" ++ sq ++ "a;b" ++ sq ++ ");"]) ∧
    (∀ body : String, (∀ c ∈ body.data, c ≠ '"' ∧ c ≠ '\x27') →
      splitStatements ("INSERT INTO t VALUES (" ++ sq ++ body ++ sq ++ ");") =
        ["INSERT INTO t VALUES (" ++ sq ++ body ++ sq ++ ");"]) ∧
    (∀ sql : String, String.join (splitStatements sql) = sql) ∧
    (splitStatements "CREATE TABLE a(x int); CREATE TABLE b(y int)" =
      ["CREATE TABLE a(x int);", " CREATE TABLE b(y int)"]) := by
  refine ⟨by with_unfolding_all decide, ?general, ?join, by with_unfolding_all decide⟩
  case general =>
    intro body hq
    have h27 : sq.data = ['\x27'] := rfl
    have hdata : ("INSERT INTO t VALUES (" ++ sq ++ body ++ sq ++ ");").data =
        "INSERT INTO t VALUES (".data ++
          ('\x27' :: (body.data ++ ('\x27' :: [')', ';']))) := by
      simp [String.data_append, h27]
    unfold splitStatements
    rw [hdata, splitAuxL_no_special "INSERT INTO t VALUES (".data
      (by with_unfolding_all decide) _ _ _]
    show (splitAuxL (body.data ++ ('\x27' :: [')', ';'])) true (some '\x27')
        (([] ++ "INSERT INTO t VALUES (".data) ++ ['\x27']) []).map String.mk = _
    rw [splitAuxL_inside_string '\x27' body.data ('\x27' :: [')', ';']) hq _ _]
    show ([(((([] ++ "INSERT INTO t VALUES (".data) ++ ['\x27']) ++ body.data)
        ++ ['\x27']) ++ [')'] ++ [';']]).map String.mk = _
    rw [List.map_cons, List.map_nil]
    refine congrArg (fun s => [s]) (String.ext ?_)
    show (((([] ++ "INSERT INTO t VALUES (".data) ++ ['\x27']) ++ body.data)
        ++ ['\x27']) ++ [')'] ++ [';'] = _
    rw [hdata]
    simp
  case join =>
    intro sql
    unfold splitStatements
    rw [join_mk_eq, splitAuxL_join]
    exact String.ext rfl

/-- Witness for C7: the quote-free-body branch applied at the body `a;b`,
reproducing the spec's concrete example. -/
theorem C7_splitter_quotes_and_trailing_witness :
    splitStatements ("INSERT INTO t VALUES (" ++ sq ++ "a;b" ++ sq ++ ");") =
      ["INSERT INTO t VALUES (" ++ sq ++ "a;b" ++ sq ++ ");"] :=
  C7_splitter_quotes_and_trailing.2.1 "a;b" (by with_unfolding_all decide)

/-! ## Script Executor (`scripts/db_utils.py`, `execute_sql_file`)

The per-statement execution loop, parametrised by the database semantics of
a single statement (`run`): psycopg2 either succeeds, raises a
DuplicateTable/DuplicateObject error, or raises some other error.  Each
successful statement is committed immediately (`conn.commit()` inside the
loop), so executions are statement-level transactions: a later failure
rolls back only the failing statement. -/
inductive ExecOutcome (σ : Type)
  | ok (s : σ)
  | dupErr (msg : String)
  | err (msg : String)
deriving DecidableEq

/-- The executor loop: strip each statement, skip blanks, execute and
commit; on a duplicate-schema-object error log a warning, roll back that
statement and continue; on any other error log it with the failing
statement, roll back and re-raise, aborting the remaining statements.
Returns the committed state, the log lines, and the propagated error. -/
def executeStatements {σ : Type} (run : σ → String → ExecOutcome σ) :
    σ → List String → σ × List String × Option String
  | s, [] => (s, [], none)
  | s, stmt :: rest =>
    let t := stmt.trim
    if t = "" then executeStatements run s rest
    else
      match run s t with
      | .ok s' => executeStatements run s' rest
      | .dupErr m =>
        let r := executeStatements run s rest
        (r.1, ("warning: already exists: " ++ m) :: r.2.1, r.2.2)
      | .err m => (s, ["error: " ++ m, "statement: " ++ t], some m)

/-- Unfolding equation: a blank statement is skipped. -/
theorem executeStatements_cons_blank {σ : Type} (run : σ → String → ExecOutcome σ)
    (s : σ) (stmt : String) (rest : List String) (ht : stmt.trim = "") :
    executeStatements run s (stmt :: rest) = executeStatements run s rest := by
  conv_lhs => unfold executeStatements
  rw [if_pos ht]

/-- Unfolding equation: a successful statement commits its new state. -/
theorem executeStatements_cons_ok {σ : Type} (run : σ → String → ExecOutcome σ)
    (s s' : σ) (stmt : String) (rest : List String) (ht : stmt.trim ≠ "")
    (h : run s stmt.trim = .ok s') :
    executeStatements run s (stmt :: rest) = executeStatements run s' rest := by
  conv_lhs => unfold executeStatements
  rw [if_neg ht, h]

/-- Unfolding equation: a duplicate-object error warns and continues. -/
theorem executeStatements_cons_dup {σ : Type} (run : σ → String → ExecOutcome σ)
    (s : σ) (stmt : String) (rest : List String) (m : String) (ht : stmt.trim ≠ "")
    (h : run s stmt.trim = .dupErr m) :
    executeStatements run s (stmt :: rest) =
      ((executeStatements run s rest).1,
       ("warning: already exists: " ++ m) :: (executeStatements run s rest).2.1,
       (executeStatements run s rest).2.2) := by
  conv_lhs => unfold executeStatements
  rw [if_neg ht, h]

/-- Unfolding equation: any other error aborts and propagates. -/
theorem executeStatements_cons_err {σ : Type} (run : σ → String → ExecOutcome σ)
    (s : σ) (stmt : String) (rest : List String) (m : String) (ht : stmt.trim ≠ "")
    (h : run s stmt.trim = .err m) :
    executeStatements run s (stmt :: rest) =
      (s, ["error: " ++ m, "statement: " ++ stmt.trim], some m) := by
  conv_lhs => unfold executeStatements
  rw [if_neg ht, h]

/-- Helper: prepending an error-free prefix runs it first and concatenates
its log. -/
theorem executeStatements_append {σ : Type} (run : σ → String → ExecOutcome σ) :
    ∀ (pre : List String) (post : List String) (s₀ s₁ : σ) (w₁ : List String),
      executeStatements run s₀ pre = (s₁, w₁, none) →
      executeStatements run s₀ (pre ++ post) =
        ((executeStatements run s₁ post).1,
         w₁ ++ (executeStatements run s₁ post).2.1,
         (executeStatements run s₁ post).2.2) := by
  intro pre
  induction pre with
  | nil =>
    intro post s₀ s₁ w₁ h
    unfold executeStatements at h
    rw [Prod.mk.injEq] at h
    obtain ⟨rfl, h2⟩ := h
    rw [Prod.mk.injEq] at h2
    obtain ⟨rfl, -⟩ := h2
    simp
  | cons stmt rest ih =>
    intro post s₀ s₁ w₁ h
    rw [List.cons_append]
    by_cases ht : stmt.trim = ""
    · rw [executeStatements_cons_blank run s₀ stmt rest ht] at h
      rw [executeStatements_cons_blank run s₀ stmt (rest ++ post) ht]
      exact ih post s₀ s₁ w₁ h
    · cases hrun : run s₀ stmt.trim with
      | ok s' =>
        rw [executeStatements_cons_ok run s₀ s' stmt rest ht hrun] at h
        rw [executeStatements_cons_ok run s₀ s' stmt (rest ++ post) ht hrun]
        exact ih post s' s₁ w₁ h
      | dupErr m =>
        rw [executeStatements_cons_dup run s₀ stmt rest m ht hrun] at h
        rw [executeStatements_cons_dup run s₀ stmt (rest ++ post) m ht hrun]
        rw [Prod.mk.injEq] at h
        obtain ⟨h1, h2⟩ := h
        rw [Prod.mk.injEq] at h2
        obtain ⟨h2, h3⟩ := h2
        cases hrest : executeStatements run s₀ rest with
        | mk a b =>
          rw [hrest] at h1 h2 h3
          simp only at h1 h2 h3
          subst h1
          rw [ih post s₀ a b.1 (by rw [hrest, ← h3]), ← h2]
          simp
      | err m =>
        rw [executeStatements_cons_err run s₀ stmt rest m ht hrun] at h
        rw [Prod.mk.injEq, Prod.mk.injEq] at h
        exact absurd h.2.2 (by simp)

/-- Claim C8: the Script Executor commits each non-blank statement
independently: after an error-free prefix (state `s₁`), (i) a statement
whose execution raises a duplicate-schema-object error is logged as a
warning, rolled back alone (state stays `s₁`) and the remaining statements
still run; (ii) a statement failing with any other error is logged together
with the failing text, rolled back (state stays `s₁`, the prefix's commits
survive), the remaining statements are aborted, and the error is propagated
to the caller; (iii) a successfully executed statement is committed and
execution continues from the new state. -/
theorem C8_executor_error_recovery {σ : Type} (run : σ → String → ExecOutcome σ)
    (pre post : List String) (d : String) (s₀ s₁ : σ) (w₁ : List String)
    (hpre : executeStatements run s₀ pre = (s₁, w₁, none))
    (hd : d.trim ≠ "") :
    (∀ m, run s₁ d.trim = .err m →
      executeStatements run s₀ (pre ++ d :: post) =
        (s₁, w₁ ++ ["error: " ++ m, "statement: " ++ d.trim], some m)) ∧
    (∀ m, run s₁ d.trim = .dupErr m →
      executeStatements run s₀ (pre ++ d :: post) =
        ((executeStatements run s₁ post).1,
         w₁ ++ ("warning: already exists: " ++ m) :: (executeStatements run s₁ post).2.1,
         (executeStatements run s₁ post).2.2)) ∧
    (∀ s₂, run s₁ d.trim = .ok s₂ →
      executeStatements run s₀ (pre ++ d :: post) =
        ((executeStatements run s₂ post).1,
         w₁ ++ (executeStatements run s₂ post).2.1,
         (executeStatements run s₂ post).2.2)) := by
  refine ⟨?_, ?_, ?_⟩
  · intro m hrun
    rw [executeStatements_append run pre (d :: post) s₀ s₁ w₁ hpre,
      executeStatements_cons_err run s₁ d post m hd hrun]
  · intro m hrun
    rw [executeStatements_append run pre (d :: post) s₀ s₁ w₁ hpre,
      executeStatements_cons_dup run s₁ d post m hd hrun]
  · intro s₂ hrun
    rw [executeStatements_append run pre (d :: post) s₀ s₁ w₁ hpre,
      executeStatements_cons_ok run s₁ s₂ d post hd hrun]

/-- Toy DDL semantics for the witness: the state is the list of existing
table names; `CREATE TABLE foo(a text)` succeeds when `foo` is absent and
raises a DuplicateTable error when present, matching the spec's
re-provisioning example. -/
def runDDL (s : List String) (stmt : String) : ExecOutcome (List String) :=
  if stmt = "CREATE TABLE foo(a text)" then
    if "foo" ∈ s then .dupErr "relation foo already exists"
    else .ok ("foo" :: s)
  else .err "syntax error"

/-- Witness for C8: executing `CREATE TABLE foo(a text);` followed by the
same statement again creates the table once, logs a duplicate warning on
the second statement and finishes without propagating an error. -/
theorem C8_executor_error_recovery_witness :
    executeStatements runDDL []
        ["CREATE TABLE foo(a text)", " CREATE TABLE foo(a text)"] =
      (["foo"], ["warning: already exists: relation foo already exists"], none) := by
  have h := (C8_executor_error_recovery runDDL ["CREATE TABLE foo(a text)"] []
    " CREATE TABLE foo(a text)" [] ["foo"] []
    (by with_unfolding_all decide) (by with_unfolding_all decide)).2.1
    "relation foo already exists" (by with_unfolding_all decide)
  exact h.trans (by with_unfolding_all decide)

/-! ## RFM Scorer (`scripts/customer_segmentation.py`, `calculate_rfm_scores`)

Monetary amounts and quantile arithmetic are exact rationals; dates are
integer day numbers, so `recency_days = today - last_purchase_date`.
`pd.qcut(col, q=5, labels, duplicates='drop')` computes the six linearly
interpolated quantiles of the sorted column (`np.sort` is modelled by
insertion sort: on a linear order the sorted permutation is unique), drops
duplicate edges, and raises `ValueError` — caught by the fallback — when
the deduplicated edges do not delimit exactly five bins.  Binning assigns a
value the first bin whose upper edge is at or above it (pandas
`right=True`, lowest edge included); a value outside every bin would
become NaN, making the later `astype(int)` raise, which is modelled by
`Option`. -/

/-- Sorted copy of the column (`np.sort`). -/
def sortQ (xs : List ℚ) : List ℚ := List.insertionSort (· ≤ ·) xs

/-- Linear-interpolation quantile of a sorted nonempty list (NumPy
`quantile(interpolation='linear')`): position `h = p·(n-1)`, value
`s[⌊h⌋] + (h-⌊h⌋)·(s[⌊h⌋+1] - s[⌊h⌋])`. -/
def quantileQ (s : List ℚ) (p : ℚ) : ℚ :=
  let n := s.length
  let h := p * ((n : ℚ) - 1)
  let i := (Int.floor h).toNat
  if i + 1 < n then s.getD i 0 + (h - (i : ℚ)) * (s.getD (i + 1) 0 - s.getD i 0)
  else s.getD (n - 1) 0

/-- Collapse runs of equal consecutive values (`np.unique` on an already
nondecreasing edge list, as produced by `duplicates='drop'`). -/
def dedupConsec : List ℚ → List ℚ
  | [] => []
  | [x] => [x]
  | x :: y :: rest =>
    if x = y then dedupConsec (y :: rest) else x :: dedupConsec (y :: rest)

/-- The bin edges `pd.qcut(values, q=5, duplicates='drop')` works with:
the six quantiles at `p = 0, 1/5, 2/5, 3/5, 4/5, 1`, duplicates dropped. -/
def qcutEdges (values : List ℚ) : List ℚ :=
  dedupConsec ([(0 : ℚ), 1/5, 2/5, 3/5, 4/5, 1].map (fun p => quantileQ (sortQ values) p))

/-- Finite bin edge as an element of the edge domain with `inf`. -/
def toEdge (x : ℚ) : WithTop ℚ := (x : WithTop ℚ)

/-- Index of the first bin whose upper edge is `≥ x`, scanning the upper
edges in order (searchsorted with `right=True` on sorted edges). -/
def findBinAux (x : ℚ) : List (WithTop ℚ) → Option Nat
  | [] => none
  | hi :: rest =>
    if (x : WithTop ℚ) ≤ hi then some 0 else (findBinAux x rest).map (fun i => i + 1)

/-- Bin assignment against an edge list: values below the lowest edge are
out of range (NaN); the lowest edge itself is included in the first bin
(`include_lowest=True`, and qcut nudges its lowest edge down). -/
def findBin (edges : List (WithTop ℚ)) (x : ℚ) : Option Nat :=
  match edges with
  | [] => none
  | e0 :: rest => if (x : WithTop ℚ) < e0 then none else findBinAux x rest

/-- `pd.qcut(values, q=5, labels, duplicates='drop')`: `none` models the
`ValueError` raised when the deduplicated edges do not give exactly five
bins (label/bin count mismatch); otherwise each value's label, with a
per-value `none` for an unbinnable value (NaN in the result column). -/
def qcutScores (values : List ℚ) (labels : List Int) : Option (List (Option Int)) :=
  let edges := qcutEdges values
  if edges.length = 6 then
    some (values.map (fun x =>
      (findBin (edges.map toEdge) x).bind (fun i => labels[i]?)))
  else none

/-- `pd.cut(values, bins, labels, include_lowest=True)` with fixed bins. -/
def cutScores (edges : List (WithTop ℚ)) (labels : List Int) (values : List ℚ) :
    List (Option Int) :=
  values.map (fun x => (findBin edges x).bind (fun i => labels[i]?))

/-- One score column: try quantile binning, fall back to the fixed
thresholds when it raises. -/
def scoreColumn (values : List ℚ) (qLabels : List Int) (cutEdges : List (WithTop ℚ))
    (cLabels : List Int) : List (Option Int) :=
  match qcutScores values qLabels with
  | some s => s
  | none => cutScores cutEdges cLabels values

/-- Fallback bins `[0, 7, 30, 90, 180, inf]` for `recency_days`. -/
def recencyEdges : List (WithTop ℚ) :=
  [toEdge 0, toEdge 7, toEdge 30, toEdge 90, toEdge 180, ⊤]

/-- Fallback bins `[0, 1, 2, 5, 10, inf]` for `total_purchases`. -/
def freqEdges : List (WithTop ℚ) :=
  [toEdge 0, toEdge 1, toEdge 2, toEdge 5, toEdge 10, ⊤]

/-- Fallback bins `[0, 10, 50, 100, 500, inf]` for `total_spent`. -/
def monetaryEdges : List (WithTop ℚ) :=
  [toEdge 0, toEdge 10, toEdge 50, toEdge 100, toEdge 500, ⊤]

/-- The `assign_segment` decision list, evaluated top to bottom. -/
def assign_segment (r f m rfm : Int) : String :=
  if 13 ≤ rfm then "Champions"
  else if 4 ≤ r ∧ (4 ≤ f ∨ 4 ≤ m) then "Loyal Customers"
  else if 3 ≤ r ∧ (3 ≤ f ∧ 3 ≤ m) then "Potential Loyalists"
  else if 4 ≤ r ∧ (f ≤ 2 ∧ m ≤ 2) then "New Customers"
  else if 3 ≤ r ∧ (f ≤ 2 ∧ m ≤ 2) then "Promising"
  else if r ≤ 2 ∧ (4 ≤ f ∧ 4 ≤ m) then "At Risk"
  else if r ≤ 2 ∧ (3 ≤ f ∧ 3 ≤ m) then "Need Attention"
  else if r ≤ 2 ∧ (f ≤ 2 ∧ 3 ≤ m) then "About to Sleep"
  else if r ≤ 2 ∧ (f ≤ 2 ∧ m ≤ 2) then "Hibernating"
  else "Cannot Lose"

/-- Embedding of `calculate_rfm_scores` over the customers table
(`CustomerRow` as read back from the store): computes `recency_days`,
scores the three columns (quantile binning with fixed-threshold fallback,
frequency clipped at 1 and monetary at 0.01 before binning), coerces the
scores to integers — raising, i.e. `none`, if any score is NaN — and adds
`rfm_score` and the segment. -/
def calculate_rfm_scores (today : Int) (customers : List CustomerRow) :
    Option (List SegmentRow) :=
  let recencyDays := customers.map (fun c => ((today - c.last_purchase_date : Int) : ℚ))
  let freqVals := customers.map (fun c => max 1 (c.total_purchases : ℚ))
  let monVals := customers.map (fun c => max (1/100) c.total_spent)
  let rS := scoreColumn recencyDays [5, 4, 3, 2, 1] recencyEdges [5, 4, 3, 2, 1]
  let fS := scoreColumn freqVals [1, 2, 3, 4, 5] freqEdges [1, 2, 3, 4, 5]
  let mS := scoreColumn monVals [1, 2, 3, 4, 5] monetaryEdges [1, 2, 3, 4, 5]
  match rS.mapM id, fS.mapM id, mS.mapM id with
  | some rl, some fl, some ml =>
    some ((customers.zip (rl.zip (fl.zip ml))).map (fun q =>
      { customer_id := q.1.customer_id, recency_score := q.2.1,
        frequency_score := q.2.2.1, monetary_score := q.2.2.2,
        rfm_score := q.2.1 + q.2.2.1 + q.2.2.2,
        segment := assign_segment q.2.1 q.2.2.1 q.2.2.2
          (q.2.1 + q.2.2.1 + q.2.2.2) }))
  | _, _, _ => none

theorem dedupConsec_length_le : ∀ l : List ℚ, (dedupConsec l).length ≤ l.length := by
  intro l
  induction l with
  | nil => simp [dedupConsec]
  | cons x t ih =>
    cases t with
    | nil => simp [dedupConsec]
    | cons y rest =>
      unfold dedupConsec
      by_cases h : x = y
      · rw [if_pos h]
        exact le_trans ih (by simp)
      · rw [if_neg h]
        simpa using ih

theorem dedupConsec_eq_of_length : ∀ l : List ℚ,
    (dedupConsec l).length = l.length → dedupConsec l = l := by
  intro l
  induction l with
  | nil => intro _; rfl
  | cons x t ih =>
    cases t with
    | nil => intro _; rfl
    | cons y rest =>
      intro hlen
      unfold dedupConsec at hlen ⊢
      by_cases h : x = y
      · rw [if_pos h] at hlen
        have hle := dedupConsec_length_le (y :: rest)
        have hlt : (y :: rest).length < (x :: y :: rest).length := by simp
        omega
      · rw [if_neg h] at hlen ⊢
        simp only [List.length_cons] at hlen
        have hlen2 : (dedupConsec (y :: rest)).length = (y :: rest).length := by
          simp only [List.length_cons]; omega
        rw [ih hlen2]

theorem quantileQ_zero (s : List ℚ) (hs : s ≠ []) : quantileQ s 0 = s.getD 0 0 := by
  have hpos : 0 < s.length := List.length_pos.mpr hs
  simp only [quantileQ, zero_mul, Int.floor_zero, Int.toNat_zero]
  by_cases h1 : 0 + 1 < s.length
  · rw [if_pos h1]
    push_cast
    ring
  · rw [if_neg h1]
    congr 1
    omega

theorem quantileQ_one (s : List ℚ) (hs : s ≠ []) :
    quantileQ s 1 = s.getD (s.length - 1) 0 := by
  have hpos : 0 < s.length := List.length_pos.mpr hs
  have hfl : Int.floor ((1 : ℚ) * ((s.length : ℚ) - 1)) = (s.length : ℤ) - 1 := by
    rw [one_mul]
    have hcast : ((s.length : ℚ) - 1) = (((s.length : ℤ) - 1 : ℤ) : ℚ) := by push_cast; ring
    rw [hcast, Int.floor_intCast]
  have ht : (Int.floor ((1 : ℚ) * ((s.length : ℚ) - 1))).toNat = s.length - 1 := by
    rw [hfl]; omega
  simp only [quantileQ, ht]
  rw [if_neg (by omega)]

theorem sorted_head_le {s : List ℚ} (hs : s.Sorted (· ≤ ·)) {x : ℚ} (hx : x ∈ s) :
    s.getD 0 0 ≤ x := by
  cases s with
  | nil => simp at hx
  | cons a t =>
    rcases List.mem_cons.mp hx with rfl | hxt
    · simp
    · simpa using (List.sorted_cons.mp hs).1 x hxt

theorem sorted_le_getLast : ∀ {s : List ℚ}, s.Sorted (· ≤ ·) →
    ∀ {x : ℚ}, x ∈ s → x ≤ s.getD (s.length - 1) 0 := by
  intro s
  induction s with
  | nil => intro _ x hx; simp at hx
  | cons a t ih =>
    intro hs x hx
    cases t with
    | nil =>
      rcases List.mem_cons.mp hx with rfl | hxt
      · simp
      · simp at hxt
    | cons b u =>
      have hstep : (a :: b :: u).getD ((a :: b :: u).length - 1) 0 =
          (b :: u).getD ((b :: u).length - 1) 0 := by
        show (a :: b :: u).getD (u.length + 1) 0 = (b :: u).getD u.length 0
        rw [List.getD_cons_succ]
      rw [hstep]
      rcases List.mem_cons.mp hx with rfl | hxt
      · have hlt : (b :: u).length - 1 < (b :: u).length := by simp
        have hmem : (b :: u).getD ((b :: u).length - 1) 0 ∈ b :: u := by
          rw [List.getD_eq_getElem (b :: u) 0 hlt]
          exact List.getElem_mem hlt
        exact (List.sorted_cons.mp hs).1 _ hmem
      · exact ih (List.sorted_cons.mp hs).2 hxt

theorem findBinAux_exists (x : ℚ) :
    ∀ es : List (WithTop ℚ), (∃ e ∈ es, (x : WithTop ℚ) ≤ e) →
      ∃ i, i < es.length ∧ findBinAux x es = some i := by
  intro es
  induction es with
  | nil => rintro ⟨e, he, -⟩; simp at he
  | cons hi rest ih =>
    rintro ⟨e, he, hxe⟩
    by_cases hle : (x : WithTop ℚ) ≤ hi
    · exact ⟨0, by simp, by simp [findBinAux, hle]⟩
    · have herest : e ∈ rest := by
        rcases List.mem_cons.mp he with rfl | h
        · exact absurd hxe hle
        · exact h
      obtain ⟨i, hilt, hfb⟩ := ih ⟨e, herest, hxe⟩
      exact ⟨i + 1, by simpa using hilt, by simp [findBinAux, hle, hfb]⟩

/-- Unfolding equation for `findBin` on a nonempty edge list. -/
theorem findBin_cons (e0 : WithTop ℚ) (rest : List (WithTop ℚ)) (x : ℚ) :
    findBin (e0 :: rest) x =
      if (x : WithTop ℚ) < e0 then none else findBinAux x rest := rfl

theorem qcut_bin_exists (values : List ℚ) (hlen : (qcutEdges values).length = 6) :
    ∀ x ∈ values, ∃ i, i < 5 ∧
      findBin ((qcutEdges values).map toEdge) x = some i := by
  intro x hx
  have hne : values ≠ [] := by rintro rfl; revert hlen; with_unfolding_all decide
  have hsne : sortQ values ≠ [] := by
    unfold sortQ
    intro hcon
    have hperm := List.perm_insertionSort (fun a b : ℚ => a ≤ b) values
    rw [hcon] at hperm
    exact hne hperm.symm.eq_nil
  have hded : qcutEdges values =
      [(0 : ℚ), 1/5, 2/5, 3/5, 4/5, 1].map (fun p => quantileQ (sortQ values) p) := by
    unfold qcutEdges
    apply dedupConsec_eq_of_length
    unfold qcutEdges at hlen
    rw [hlen]
    simp
  have h0 : quantileQ (sortQ values) 0 = (sortQ values).getD 0 0 :=
    quantileQ_zero _ hsne
  have h1 : quantileQ (sortQ values) 1 =
      (sortQ values).getD ((sortQ values).length - 1) 0 := quantileQ_one _ hsne
  have hxs : x ∈ sortQ values :=
    ((List.perm_insertionSort (fun a b : ℚ => a ≤ b) values).mem_iff).mpr hx
  have hsorted : (sortQ values).Sorted (· ≤ ·) :=
    List.sorted_insertionSort (fun a b : ℚ => a ≤ b) values
  have hlow : (sortQ values).getD 0 0 ≤ x := sorted_head_le hsorted hxs
  have hhigh : x ≤ (sortQ values).getD ((sortQ values).length - 1) 0 :=
    sorted_le_getLast hsorted hxs
  have hmap : (qcutEdges values).map toEdge =
      toEdge (quantileQ (sortQ values) 0) ::
      [toEdge (quantileQ (sortQ values) (1/5)),
       toEdge (quantileQ (sortQ values) (2/5)),
       toEdge (quantileQ (sortQ values) (3/5)),
       toEdge (quantileQ (sortQ values) (4/5)),
       toEdge (quantileQ (sortQ values) 1)] := by
    rw [hded]
    rfl
  rw [hmap, findBin_cons, if_neg (not_lt.mpr (by
    rw [← h0] at hlow
    show ((quantileQ (sortQ values) 0 : ℚ) : WithTop ℚ) ≤ (x : WithTop ℚ)
    exact WithTop.coe_le_coe.mpr hlow))]
  have hlast : (x : WithTop ℚ) ≤ toEdge (quantileQ (sortQ values) 1) := by
    show (x : WithTop ℚ) ≤ ((quantileQ (sortQ values) 1 : ℚ) : WithTop ℚ)
    rw [h1]
    exact_mod_cast WithTop.coe_le_coe.mpr hhigh
  obtain ⟨i, hilt, hfb⟩ := findBinAux_exists x
    [toEdge (quantileQ (sortQ values) (1/5)),
     toEdge (quantileQ (sortQ values) (2/5)),
     toEdge (quantileQ (sortQ values) (3/5)),
     toEdge (quantileQ (sortQ values) (4/5)),
     toEdge (quantileQ (sortQ values) 1)]
    ⟨_, by simp, hlast⟩
  exact ⟨i, by simpa using hilt, hfb⟩

theorem findBin_fixed5 (e0 e1 e2 e3 e4 : ℚ) (x : ℚ) (hx : e0 ≤ x) :
    ∃ i, i < 5 ∧
      findBin [toEdge e0, toEdge e1, toEdge e2, toEdge e3, toEdge e4, ⊤] x
        = some i := by
  rw [findBin_cons, if_neg (not_lt.mpr (by
    show ((e0 : ℚ) : WithTop ℚ) ≤ (x : WithTop ℚ)
    exact WithTop.coe_le_coe.mpr hx))]
  obtain ⟨i, hilt, hfb⟩ := findBinAux_exists x
    [toEdge e1, toEdge e2, toEdge e3, toEdge e4, ⊤]
    ⟨⊤, by simp, le_top⟩
  exact ⟨i, by simpa using hilt, hfb⟩

theorem label_bounds (labels : List Int) (hlen : labels.length = 5)
    (hb : ∀ l ∈ labels, 1 ≤ l ∧ l ≤ 5) (i : Nat) (hi : i < 5) :
    ∃ v, labels[i]? = some v ∧ 1 ≤ v ∧ v ≤ 5 := by
  have hlt : i < labels.length := by omega
  exact ⟨labels[i], List.getElem?_eq_getElem hlt,
    (hb _ (List.getElem_mem hlt)).1, (hb _ (List.getElem_mem hlt)).2⟩

theorem scoreColumn_bounds (values : List ℚ) (qLabels cLabels : List Int)
    (cutEdges : List (WithTop ℚ))
    (hql : qLabels.length = 5) (hqb : ∀ l ∈ qLabels, 1 ≤ l ∧ l ≤ 5)
    (hcl : cLabels.length = 5) (hcb : ∀ l ∈ cLabels, 1 ≤ l ∧ l ≤ 5)
    (hcut : ∀ x ∈ values, ∃ i, i < 5 ∧ findBin cutEdges x = some i) :
    (scoreColumn values qLabels cutEdges cLabels).length = values.length ∧
    ∀ o ∈ scoreColumn values qLabels cutEdges cLabels,
      ∃ v, o = some v ∧ 1 ≤ v ∧ v ≤ 5 := by
  unfold scoreColumn
  cases hq : qcutScores values qLabels with
  | none =>
    unfold cutScores
    refine ⟨by simp, ?_⟩
    intro o ho
    obtain ⟨x, hxv, rfl⟩ := List.mem_map.mp ho
    obtain ⟨i, hi5, hfb⟩ := hcut x hxv
    obtain ⟨v, hv, h1, h5⟩ := label_bounds cLabels hcl hcb i hi5
    exact ⟨v, by rw [hfb]; simpa using hv, h1, h5⟩
  | some s =>
    simp only [qcutScores] at hq
    by_cases h6 : (qcutEdges values).length = 6
    · rw [if_pos h6, Option.some.injEq] at hq
      subst hq
      refine ⟨by simp, ?_⟩
      intro o ho
      obtain ⟨x, hxv, rfl⟩ := List.mem_map.mp ho
      obtain ⟨i, hi5, hfb⟩ := qcut_bin_exists values h6 x hxv
      obtain ⟨v, hv, h1, h5⟩ := label_bounds qLabels hql hqb i hi5
      exact ⟨v, by rw [hfb]; simpa using hv, h1, h5⟩
    · rw [if_neg h6] at hq
      exact absurd hq (by simp)

theorem mapM_id_all_some {α : Type} :
    ∀ l : List (Option α), (∀ o ∈ l, ∃ v, o = some v) →
      ∃ l', l.mapM id = some l' ∧ l'.length = l.length ∧ ∀ v ∈ l', some v ∈ l := by
  intro l
  induction l with
  | nil => intro _; exact ⟨[], rfl, rfl, by simp⟩
  | cons o rest ih =>
    intro h
    obtain ⟨v, rfl⟩ := h o (List.mem_cons_self o rest)
    obtain ⟨l', hl', hlen, hmem⟩ := ih (fun o ho => h o (List.mem_cons_of_mem _ ho))
    refine ⟨v :: l', ?_, by simp [hlen], ?_⟩
    · rw [List.mapM_cons, hl']
      rfl
    · intro w hw
      rcases List.mem_cons.mp hw with rfl | hwr
      · exact List.mem_cons_self _ _
      · exact List.mem_cons_of_mem _ (hmem w hwr)

/-- Claim C5: for every non-empty customer set whose last purchase dates do
not lie in the future, the RFM Scorer returns (never raises), assigning
every customer integer recency/frequency/monetary scores in [1,5] with
`rfm_score` their sum in [3,15]; and quantile binning on a single customer
always degenerates (raises `ValueError`), so the fixed-threshold fallback
is the path taken in that case. -/
theorem C5_rfm_scorer_total_and_bounded :
    (∀ (today : Int) (cs : List CustomerRow), cs ≠ [] →
      (∀ c ∈ cs, c.last_purchase_date ≤ today) →
      ∃ out, calculate_rfm_scores today cs = some out ∧
        out.length = cs.length ∧
        ∀ s ∈ out,
          1 ≤ s.recency_score ∧ s.recency_score ≤ 5 ∧
          1 ≤ s.frequency_score ∧ s.frequency_score ≤ 5 ∧
          1 ≤ s.monetary_score ∧ s.monetary_score ≤ 5 ∧
          s.rfm_score = s.recency_score + s.frequency_score + s.monetary_score ∧
          3 ≤ s.rfm_score ∧ s.rfm_score ≤ 15) ∧
    (∀ (v : ℚ) (labels : List Int), qcutScores [v] labels = none) := by
  constructor
  · intro today cs hne hdates
    have hrcut : ∀ x ∈ cs.map (fun c => ((today - c.last_purchase_date : Int) : ℚ)),
        ∃ i, i < 5 ∧ findBin recencyEdges x = some i := by
      intro x hx
      obtain ⟨c, hc, rfl⟩ := List.mem_map.mp hx
      have h0 : (0 : ℚ) ≤ ((today - c.last_purchase_date : Int) : ℚ) := by
        have := hdates c hc
        exact_mod_cast Int.sub_nonneg.mpr this
      exact findBin_fixed5 0 7 30 90 180 _ h0
    have hfcut : ∀ x ∈ cs.map (fun c => max 1 (c.total_purchases : ℚ)),
        ∃ i, i < 5 ∧ findBin freqEdges x = some i := by
      intro x hx
      obtain ⟨c, hc, rfl⟩ := List.mem_map.mp hx
      have h0 : (0 : ℚ) ≤ max 1 (c.total_purchases : ℚ) :=
        le_trans zero_le_one (le_max_left _ _)
      exact findBin_fixed5 0 1 2 5 10 _ h0
    have hmcut : ∀ x ∈ cs.map (fun c => max (1/100) c.total_spent),
        ∃ i, i < 5 ∧ findBin monetaryEdges x = some i := by
      intro x hx
      obtain ⟨c, hc, rfl⟩ := List.mem_map.mp hx
      have h0 : (0 : ℚ) ≤ max (1/100) c.total_spent :=
        le_trans (by norm_num) (le_max_left _ _)
      exact findBin_fixed5 0 10 50 100 500 _ h0
    obtain ⟨hrlen, hrb⟩ := scoreColumn_bounds
      (cs.map (fun c => ((today - c.last_purchase_date : Int) : ℚ)))
      [5, 4, 3, 2, 1] [5, 4, 3, 2, 1] recencyEdges rfl (by decide) rfl (by decide) hrcut
    obtain ⟨hflen, hfb⟩ := scoreColumn_bounds
      (cs.map (fun c => max 1 (c.total_purchases : ℚ)))
      [1, 2, 3, 4, 5] [1, 2, 3, 4, 5] freqEdges rfl (by decide) rfl (by decide) hfcut
    obtain ⟨hmlen, hmb⟩ := scoreColumn_bounds
      (cs.map (fun c => max (1/100) c.total_spent))
      [1, 2, 3, 4, 5] [1, 2, 3, 4, 5] monetaryEdges rfl (by decide) rfl (by decide) hmcut
    obtain ⟨rl, hrl, hrllen, hrlmem⟩ := mapM_id_all_some _
      (fun o ho => by obtain ⟨v, hv, -, -⟩ := hrb o ho; exact ⟨v, hv⟩)
    obtain ⟨fl, hfl, hfllen, hflmem⟩ := mapM_id_all_some _
      (fun o ho => by obtain ⟨v, hv, -, -⟩ := hfb o ho; exact ⟨v, hv⟩)
    obtain ⟨ml, hml, hmllen, hmlmem⟩ := mapM_id_all_some _
      (fun o ho => by obtain ⟨v, hv, -, -⟩ := hmb o ho; exact ⟨v, hv⟩)
    have hcalc : calculate_rfm_scores today cs =
        some ((cs.zip (rl.zip (fl.zip ml))).map (fun q =>
          { customer_id := q.1.customer_id, recency_score := q.2.1,
            frequency_score := q.2.2.1, monetary_score := q.2.2.2,
            rfm_score := q.2.1 + q.2.2.1 + q.2.2.2,
            segment := assign_segment q.2.1 q.2.2.1 q.2.2.2
              (q.2.1 + q.2.2.1 + q.2.2.2) })) := by
      simp only [calculate_rfm_scores]
      rw [hrl, hfl, hml]
    refine ⟨_, hcalc, ?_, ?_⟩
    · rw [List.length_map, List.length_zip, List.length_zip, List.length_zip]
      have h1 : rl.length = cs.length := by rw [hrllen, hrlen, List.length_map]
      have h2 : fl.length = cs.length := by rw [hfllen, hflen, List.length_map]
      have h3 : ml.length = cs.length := by rw [hmllen, hmlen, List.length_map]
      simp [h1, h2, h3]
    · intro s hs
      obtain ⟨q, hq, rfl⟩ := List.mem_map.mp hs
      obtain ⟨c, r, f, m⟩ := q
      have hq1 := List.of_mem_zip hq
      have hq2 := List.of_mem_zip hq1.2
      have hq3 := List.of_mem_zip hq2.2
      obtain ⟨vr, hvr, hr1, hr5⟩ := hrb _ (hrlmem r hq2.1)
      obtain ⟨vf, hvf, hf1, hf5⟩ := hfb _ (hflmem f hq3.1)
      obtain ⟨vm, hvm, hm1, hm5⟩ := hmb _ (hmlmem m hq3.2)
      rw [Option.some.injEq] at hvr hvf hvm
      subst hvr; subst hvf; subst hvm
      have hsum1 : 3 ≤ r + f + m := by omega
      have hsum2 : r + f + m ≤ 15 := by omega
      exact ⟨hr1, hr5, hf1, hf5, hm1, hm5, rfl, hsum1, hsum2⟩
  · intro v labels
    have hsort : sortQ [v] = [v] := rfl
    have hq : ∀ p : ℚ, quantileQ [v] p = v := by
      intro p
      simp only [quantileQ, List.length_singleton]
      rw [if_neg (by omega)]
      rfl
    have hedges : qcutEdges [v] = [v] := by
      unfold qcutEdges
      rw [hsort]
      simp only [List.map_cons, List.map_nil, hq]
      simp [dedupConsec]
    simp only [qcutScores, hedges]
    simp

/-- Concrete customer matching the spec's Champions example: 2 days since
last purchase, 12 purchases, 800 spent. -/
def c5cust : CustomerRow :=
  { customer_id := "A", country := "UK", first_purchase_date := -10,
    last_purchase_date := -2, total_purchases := 12, total_spent := 800 }

/-- Witness for C5 at the single-customer dataset (the degenerate case in
which quantile binning raises and the fallback is taken). -/
theorem C5_rfm_scorer_total_and_bounded_witness :
    ∃ out, calculate_rfm_scores 0 [c5cust] = some out ∧
      out.length = [c5cust].length ∧
      ∀ s ∈ out,
        1 ≤ s.recency_score ∧ s.recency_score ≤ 5 ∧
        1 ≤ s.frequency_score ∧ s.frequency_score ≤ 5 ∧
        1 ≤ s.monetary_score ∧ s.monetary_score ≤ 5 ∧
        s.rfm_score = s.recency_score + s.frequency_score + s.monetary_score ∧
        3 ≤ s.rfm_score ∧ s.rfm_score ≤ 15 :=
  C5_rfm_scorer_total_and_bounded.1 0 [c5cust] (by simp)
    (by with_unfolding_all decide)

end ECommerce
